import Mathlib

/-!
A shallow embedding of the RAG core in `src/lib/rag.ts`: document chunking,
date extraction, cosine-similarity search with temporal re-ranking, result
formatting, and the chunk/embedding dual bookkeeping of `RAGSystem`.

Conventions of the embedding:
* JS numbers carrying similarity scores and embedding components are modelled
  as real numbers; timestamps (`Date.getTime()` values) as integers
  (milliseconds).
* `new Date(year, month, day)` is modelled by a proleptic-Gregorian
  day-number conversion (`daysFromCivil`), which is linear in the day
  argument and therefore reproduces the JS rollover behaviour (e.g. a
  structural "Feb 30" denotes March 2), times 86400000 ms per day.
* JS strings are modelled as Lean strings / `List Char`; the two date
  regexes of `extractDatesFromChunk` are hand-compiled into deterministic
  scanners that reproduce the leftmost, greedy, backtracking semantics of
  the JS engine on these particular patterns.
* `new Date(string)` parsing of metadata property values is host behaviour;
  it is a parameter `pd : String → Option Int` of the search model
  (`none` models an unparseable value, i.e. `isNaN(date.getTime())`).
-/

/-! ### JS string helpers -/

/-- Membership of a character in the JS `\s` class (the whitespace characters
relevant to this code base). -/
def jsWhitespace (c : Char) : Bool :=
  c == ' ' || c == '\t' || c == '\n' || c == '\r' || c == '\x0b' ||
  c == '\x0c' || c == '\u00A0' || c == '\u2028' || c == '\u2029' || c == '\uFEFF'

/-- Does `pat` occur as a prefix of `s`? -/
def listPrefix : List Char → List Char → Bool
  | [], _ => true
  | _ :: _, [] => false
  | p :: ps, c :: cs => p == c && listPrefix ps cs

/-- Does `pat` occur as a contiguous substring of `s` (JS `String.includes`)? -/
def listContains (pat : List Char) : List Char → Bool
  | [] => pat.isEmpty
  | c :: rest => listPrefix pat (c :: rest) || listContains pat rest

/-- `/최근|요즘|지금|오늘|이번|근래/i.test(query)` -/
def isRecentQuery (q : String) : Bool :=
  ["최근", "요즘", "지금", "오늘", "이번", "근래"].any
    (fun kw => listContains kw.data q.data)

/-- `/다가오는|앞으로|미래|예정|곧/i.test(query)` -/
def isUpcomingQuery (q : String) : Bool :=
  ["다가오는", "앞으로", "미래", "예정", "곧"].any
    (fun kw => listContains kw.data q.data)

/-- `/지난|과거|전에|이전/i.test(query)` -/
def isPastQuery (q : String) : Bool :=
  ["지난", "과거", "전에", "이전"].any
    (fun kw => listContains kw.data q.data)

/-! ### Calendar arithmetic for JS `Date` values -/

/-- Numeric value of a decimal digit character. -/
def digitVal (c : Char) : Nat := c.toNat - 48

/-- Day number of the proleptic Gregorian date `(y, m, d)` (month `m`
1-based) counted from the Unix epoch; linear in `d`, so out-of-range day
values roll over exactly as in the JS `Date` constructor. -/
def daysFromCivil (y m d : Int) : Int :=
  let y' := if m ≤ 2 then y - 1 else y
  let era := Int.fdiv y' 400
  let yoe := y' - era * 400
  let mp := Int.fmod (m + 9) 12
  let doy := Int.fdiv (153 * mp + 2) 5 + d - 1
  let doe := yoe * 365 + Int.fdiv yoe 4 - Int.fdiv yoe 100 + doy
  era * 146097 + doe - 719468

/-- The calendar year containing epoch day number `z0` (inverse of
`daysFromCivil` on the year component). -/
def civilYearFromDays (z0 : Int) : Int :=
  let z := z0 + 719468
  let era := Int.fdiv z 146097
  let doe := z - era * 146097
  let yoe := Int.fdiv (doe - Int.fdiv doe 1460 + Int.fdiv doe 36524 - Int.fdiv doe 146096) 365
  let y := yoe + era * 400
  let doy := doe - (365 * yoe + Int.fdiv yoe 4 - Int.fdiv yoe 100)
  let mp := Int.fdiv (5 * doy + 2) 153
  let m := mp + (if mp < 10 then 3 else -9)
  if m ≤ 2 then y + 1 else y

/-- `new Date(year, month, day).getTime()` with a 0-based `month`, in ms. -/
def jsMakeDate (y m0 d : Int) : Int :=
  daysFromCivil y (m0 + 1) d * 86400000

/-- `date.getFullYear()` of a timestamp in ms. -/
def jsGetFullYear (t : Int) : Int :=
  civilYearFromDays (Int.fdiv t 86400000)

/-! ### The two date regexes of `extractDatesFromChunk`, hand-compiled

`koreanDateRegex = /(\d{4})[년\.\s]*(\d{1,2})[월\.\s]*(\d{1,2})[일\.\s]*/g`
`isoDateRegex = /(\d{4})-(\d{2})-(\d{2})/g`
-/

/-- The `[년\.\s]` character class. -/
def koSep1 (c : Char) : Bool := c == '년' || c == '.' || jsWhitespace c

/-- The `[월\.\s]` character class. -/
def koSep2 (c : Char) : Bool := c == '월' || c == '.' || jsWhitespace c

/-- The `[일\.\s]` character class. -/
def koSep3 (c : Char) : Bool := c == '일' || c == '.' || jsWhitespace c

/-- Greedy `\d{1,2}`: one or two leading digits and the remaining input. -/
def matchTwoDigits : List Char → Option (Nat × List Char)
  | a :: b :: rest =>
    if a.isDigit then
      if b.isDigit then some (10 * digitVal a + digitVal b, rest)
      else some (digitVal a, b :: rest)
    else none
  | [a] => if a.isDigit then some (digitVal a, []) else none
  | [] => none

/-- `(\d{1,2})[월\.\s]*(\d{1,2})` with the backtracking order of the JS
engine: the month group first takes two digits greedily; if no day digit
can then be found after the separator run, it backs off to one digit, in
which case the second digit (necessarily followed by a non-digit) becomes
the day. -/
def matchMD : List Char → Option (Nat × Nat × List Char)
  | d1 :: d2 :: rest =>
    if d1.isDigit then
      if d2.isDigit then
        match matchTwoDigits (rest.dropWhile koSep2) with
        | some (dv, rest2) => some (10 * digitVal d1 + digitVal d2, dv, rest2)
        | none => some (digitVal d1, digitVal d2, rest)
      else
        match matchTwoDigits ((d2 :: rest).dropWhile koSep2) with
        | some (dv, rest2) => some (digitVal d1, dv, rest2)
        | none => none
    else none
  | [_] => none
  | [] => none

/-- Attempt the Korean date pattern at the head of the input; on success
return the `(year, month, day)` capture groups and the input following the
whole match (after the trailing greedy `[일\.\s]*` run). -/
def koMatchAt : List Char → Option ((Nat × Nat × Nat) × List Char)
  | a :: b :: c :: d :: rest =>
    if a.isDigit && b.isDigit && c.isDigit && d.isDigit then
      let y := 1000 * digitVal a + 100 * digitVal b + 10 * digitVal c + digitVal d
      match matchMD (rest.dropWhile koSep1) with
      | some (m, dv, rest2) => some ((y, m, dv), rest2.dropWhile koSep3)
      | none => none
    else none
  | _ => none

/-- Attempt the ISO `(\d{4})-(\d{2})-(\d{2})` pattern at the head. -/
def isoMatchAt : List Char → Option ((Nat × Nat × Nat) × List Char)
  | y1 :: y2 :: y3 :: y4 :: h1 :: m1 :: m2 :: h2 :: d1 :: d2 :: rest =>
    if y1.isDigit && y2.isDigit && y3.isDigit && y4.isDigit && h1 == '-' &&
       m1.isDigit && m2.isDigit && h2 == '-' && d1.isDigit && d2.isDigit then
      some ((1000 * digitVal y1 + 100 * digitVal y2 + 10 * digitVal y3 + digitVal y4,
             10 * digitVal m1 + digitVal m2,
             10 * digitVal d1 + digitVal d2), rest)
    else none
  | _ => none

/-- One left-to-right `exec` loop: try the matcher at each position, and on
a match resume after it (non-overlapping, as with a `/g` regex). The fuel
argument is initialised to the input length, which bounds the number of
steps. -/
def scanAux (matchAt : List Char → Option ((Nat × Nat × Nat) × List Char)) :
    Nat → List Char → List (Nat × Nat × Nat)
  | 0, _ => []
  | _ + 1, [] => []
  | fuel + 1, c :: cs =>
    match matchAt (c :: cs) with
    | some (t, rest) => t :: scanAux matchAt fuel rest
    | none => scanAux matchAt fuel cs

/-- All matches of the Korean date regex in a string. -/
def scanKorean (s : List Char) : List (Nat × Nat × Nat) :=
  scanAux koMatchAt s.length s

/-- All matches of the ISO date regex in a string. -/
def scanISO (s : List Char) : List (Nat × Nat × Nat) :=
  scanAux isoMatchAt s.length s

/-! ### Data model -/

/-- The `metadata` record of a `DocumentChunk`. Property values are the
strings copied from date-typed page properties. -/
structure ChunkMetadata where
  title : String
  pageId : String
  lastModified : String
  url : Option String
  properties : List (String × String)
  chunkIndex : Option Nat
  totalChunks : Option Nat

/-- `DocumentChunk` of `rag.ts`: a bounded slice of a document plus
provenance metadata and an optional embedding vector. -/
structure DocumentChunk where
  id : String
  content : String
  metadata : ChunkMetadata
  embedding : Option (List ℝ)

/-- `SearchResult` of `rag.ts`. -/
structure SearchResult where
  chunk : DocumentChunk
  score : ℝ

/-! ### `extractDatesFromChunk` -/

/-- `key.toLowerCase().includes('date') || key.includes('날짜') || key.includes('일정')` -/
def keyHasDateToken (key : String) : Bool :=
  listContains "date".data key.toLower.data ||
  listContains "날짜".data key.data ||
  listContains "일정".data key.data

/-- `extractDatesFromChunk`: Korean-regex matches of the content, then ISO
matches, each accepted only when year/month/day pass the range guard, then
metadata property values under date-indicating keys parsed by the host date
parser `pd` and accepted when parseable with year in range. Results are
`getTime()` values in ms. -/
def extractDatesFromChunk (pd : String → Option Int) (chunk : DocumentChunk) :
    List Int :=
  let fromTriples : List (Nat × Nat × Nat) → List Int :=
    List.filterMap (fun t =>
      let year : Int := t.1
      let month : Int := (t.2.1 : Int) - 1
      let day : Int := t.2.2
      if 2020 ≤ year ∧ year ≤ 2030 ∧ 0 ≤ month ∧ month ≤ 11 ∧ 1 ≤ day ∧ day ≤ 31 then
        some (jsMakeDate year month day)
      else none)
  let contentChars := chunk.content.data
  let koreanDates := fromTriples (scanKorean contentChars)
  let isoDates := fromTriples (scanISO contentChars)
  let metaDates := chunk.metadata.properties.filterMap (fun kv =>
    if keyHasDateToken kv.1 then
      match pd kv.2 with
      | some t =>
        if 2020 ≤ jsGetFullYear t ∧ jsGetFullYear t ≤ 2030 then some t else none
      | none => none
    else none)
  koreanDates ++ isoDates ++ metaDates

/-! ### `cosineSimilarity` -/

/-- The loop of `cosineSimilarity` accumulates `dotProduct`, `normA = Σ a i * a i`
and `normB` over the common indices; `listDot` is that accumulator. -/
def listDot (a b : List ℝ) : ℝ := (List.zipWith (fun x y => x * y) a b).sum

/-- `cosineSimilarity`: `0` for vectors of different lengths, otherwise the
dot product over the product of the Euclidean norms (division unguarded, as
in the source). -/
noncomputable def cosineSimilarity (a b : List ℝ) : ℝ :=
  if a.length ≠ b.length then 0
  else listDot a b / (Real.sqrt (listDot a a) * Real.sqrt (listDot b b))

/-! ### An idealized IEEE view of the final division

Real arithmetic has no NaN; to state what the unguarded division does on a
zero vector we model the one JS operation whose IEEE behaviour matters —
the final `/` — over exact reals extended with the special values. -/

/-- Idealized JS `number` results: an exact real, an infinity, or NaN. -/
inductive JsFloat where
  | num (x : ℝ)
  | inf
  | negInf
  | nan
deriving Inhabited

/-- IEEE division of two exact-real operands: `0/0` is NaN, `x/0` for
`x ≠ 0` is a signed infinity, and otherwise the exact quotient. -/
noncomputable def jsDiv (x y : ℝ) : JsFloat :=
  if y = 0 then
    if x = 0 then JsFloat.nan
    else if 0 < x then JsFloat.inf else JsFloat.negInf
  else JsFloat.num (x / y)

/-- `cosineSimilarity` with the final division interpreted by IEEE rules
(the loop itself, sums and products of finite reals, stays exact). -/
noncomputable def cosineSimilarityIEEE (a b : List ℝ) : JsFloat :=
  if a.length ≠ b.length then JsFloat.num 0
  else jsDiv (listDot a b) (Real.sqrt (listDot a a) * Real.sqrt (listDot b b))

/-! ### `searchSimilarChunks` -/

/-- The per-date test of the `for (const chunkDate of chunkDates)` loop:
*recent* means within ±7 days of `now`, *upcoming* strictly after `now`,
*past* strictly before `now`, tried in that order. -/
def dateMatchCheck (query : String) (now : Int) (d : Int) : Bool :=
  if isRecentQuery query then
    decide (now - 7 * 24 * 60 * 60 * 1000 ≤ d) &&
    decide (d ≤ now + 7 * 24 * 60 * 60 * 1000)
  else if isUpcomingQuery query then decide (now < d)
  else if isPastQuery query then decide (d < now)
  else false

/-- The year-staleness test of the drop branch: `d.getFullYear() < 2024`. -/
def staleYearCheck (d : Int) : Bool :=
  decide (jsGetFullYear d < 2024)

/-- The per-chunk body of the scoring loop of `searchSimilarChunks`:
`none` models `continue` (chunk contributes no result), `some r` models
`similarities.push(r)`. `qe` is the query embedding, `now` the current
time in ms, `pd` the host date parser for metadata values. -/
noncomputable def scoreChunk (qe : List ℝ) (query : String) (now : Int)
    (pd : String → Option Int) (chunk : DocumentChunk) : Option SearchResult :=
  match chunk.embedding with
  | none => none
  | some emb =>
    let similarity := cosineSimilarity qe emb
    if isRecentQuery query || isUpcomingQuery query || isPastQuery query then
      let chunkDates := extractDatesFromChunk pd chunk
      if chunkDates.length ≠ 0 then
        let dateMatches := chunkDates.any (dateMatchCheck query now)
        if dateMatches then some ⟨chunk, similarity * 1.2⟩
        else if isRecentQuery query && chunkDates.any staleYearCheck then none
        else some ⟨chunk, similarity * 0.3⟩
      else some ⟨chunk, similarity * 0.5⟩
    else some ⟨chunk, similarity⟩

/-- The comparator `(a, b) => b.score - a.score` as a sort order: `a` may
precede `b` when the comparator is `≤ 0`. -/
noncomputable def scoreLE (a b : SearchResult) : Bool :=
  decide (b.score ≤ a.score)

/-- `searchSimilarChunks`: score every chunk (skipping those without an
embedding), sort by score descending (JS `sort` is stable; `mergeSort`
with `scoreLE` is the same stable descending sort), take the first `topK`. -/
noncomputable def searchSimilarChunks (chunks : List DocumentChunk)
    (qe : List ℝ) (query : String) (topK : Nat) (now : Int)
    (pd : String → Option Int) : List SearchResult :=
  ((chunks.filterMap (scoreChunk qe query now pd)).mergeSort scoreLE).take topK

/-! ### `splitIntoChunks`

The metadata template of step 1 of the chunker is taken as parameters
(`title`, the optional `page.id`, the resolved `lastModified`, `url` and
the computed `properties` map); the claims concern the splitting loop.
`chunkSize = 1000`, `overlap = 200`. -/

/-- Build one chunk record of the splitting loop. -/
def mkChunk (pageId : Option String) (title lastModified : String)
    (url : Option String) (properties : List (String × String))
    (total : Nat) (cs : List Char) (idx : Nat) : DocumentChunk :=
  { id := pageId.getD "chunk" ++ "-" ++ toString idx
    content := String.mk cs
    metadata :=
      { title := title
        pageId := pageId.getD "unknown"
        lastModified := lastModified
        url := url
        properties := properties
        chunkIndex := some idx
        totalChunks := some total }
    embedding := none }

/-- The `while (startIndex < content.length)` loop: the suffix of the text
from the current `startIndex` is the argument; each step emits
`content.substring(startIndex, startIndex + 1000)` and advances by
`1000 - 200 = 800`. -/
def buildChunks (pageId : Option String) (title lastModified : String)
    (url : Option String) (properties : List (String × String))
    (total : Nat) : List Char → Nat → List DocumentChunk
  | [], _ => []
  | c :: cs, idx =>
    mkChunk pageId title lastModified url properties total ((c :: cs).take 1000) idx ::
      buildChunks pageId title lastModified url properties total ((c :: cs).drop 800) (idx + 1)
termination_by cs _ => cs.length
decreasing_by simp; omega

/-- `splitIntoChunks`: a single whole-text chunk when the text fits in one
chunk, otherwise the sliding-window loop with
`totalChunks = Math.ceil(length / (chunkSize - overlap))`. -/
def splitIntoChunks (content : String) (title : String) (pageId : Option String)
    (lastModified : String) (url : Option String)
    (properties : List (String × String)) : List DocumentChunk :=
  let cs := content.data
  if cs.length ≤ 1000 then
    [{ id := pageId.getD "chunk" ++ "-0"
       content := content
       metadata :=
         { title := title
           pageId := pageId.getD "unknown"
           lastModified := lastModified
           url := url
           properties := properties
           chunkIndex := some 0
           totalChunks := some 1 }
       embedding := none }]
  else
    buildChunks pageId title lastModified url properties
      ((cs.length + 800 - 1) / 800) cs 0

/-! ### `formatSearchResults` -/

/-- `k.toFixed(1)` for a non-negative argument: the integer `n` closest to
`10 * k` (ties upward), rendered with one decimal digit. -/
noncomputable def jsToFixed1Abs (x : ℝ) : String :=
  let n := (⌊x * 10 + 1 / 2⌋ : Int).toNat
  toString (n / 10) ++ "." ++ toString (n % 10)

/-- `x.toFixed(1)`: ES `Number.prototype.toFixed` first strips the sign. -/
noncomputable def jsToFixed1 (x : ℝ) : String :=
  if x < 0 then "-" ++ jsToFixed1Abs (-x) else jsToFixed1Abs x

/-- The string appended to `context` by one iteration of the `forEach`
loop of `formatSearchResults` (`index` is 0-based there; here `n = index + 1`). -/
noncomputable def entryString (n : Nat) (r : SearchResult) : String :=
  "[" ++ toString n ++ "] " ++ r.chunk.metadata.title ++ "\n" ++
    r.chunk.content ++ "\n" ++
    "(유사도: " ++ jsToFixed1 (r.score * 100) ++ "%)\n\n"

/-- `formatSearchResults`: the fixed sentinel for an empty result list,
otherwise the header followed by one numbered entry per result. -/
noncomputable def formatSearchResults (results : List SearchResult) : String :=
  if results.length = 0 then "관련된 정보를 찾을 수 없습니다."
  else
    results.enum.foldl (fun context ir => context ++ entryString (ir.1 + 1) ir.2)
      "다음은 관련된 정보들입니다:\n\n"

/-! ### The `RAGSystem` store: chunks, the id→vector map, save/load -/

/-- `Map.get`: the value at the first (unique) occurrence of the key. -/
def mapGet (m : List (String × List ℝ)) (k : String) : Option (List ℝ) :=
  match m with
  | [] => none
  | kv :: rest => if kv.1 = k then some kv.2 else mapGet rest k

/-- `Map.set`: update the existing entry in place, else append. -/
def mapSet (m : List (String × List ℝ)) (k : String) (v : List ℝ) :
    List (String × List ℝ) :=
  match m with
  | [] => [(k, v)]
  | kv :: rest => if kv.1 = k then (k, v) :: rest else kv :: mapSet rest k v

/-- `new Map(entries)`: insert the pairs in order. -/
def mapFromEntries (l : List (String × List ℝ)) : List (String × List ℝ) :=
  l.foldl (fun m kv => mapSet m kv.1 kv.2) []

/-- The mutable state of a `RAGSystem` instance: the chunk sequence, the
id→vector map (a JS `Map` iterates in insertion order, hence an association
list), and the optional OpenAI client. -/
structure RAGState where
  chunks : List DocumentChunk
  embeddings : List (String × List ℝ)
  openai : Option String

/-- One run of the batch loop of `generateEmbeddings` over the chunk
suffix `cs`: each batch is the next 100 chunks; for batch element `i` the
service vector is written to the map under the chunk id and into the
chunk's own `embedding` field. `svc` models the embedding service
(one vector per input text, order preserving). -/
def embedRun (svc : String → List ℝ) :
    List DocumentChunk → List (String × List ℝ) →
    List DocumentChunk × List (String × List ℝ)
  | [], m => ([], m)
  | c :: cs, m =>
    let batch := (c :: cs).take 100
    let updChunks := batch.map (fun ch => { ch with embedding := some (svc ch.content) })
    let updMap := batch.foldl (fun acc ch => mapSet acc ch.id (svc ch.content)) m
    let rest := embedRun svc ((c :: cs).drop 100) updMap
    (updChunks ++ rest.1, rest.2)
termination_by cs _ => cs.length
decreasing_by simp; omega

/-- `generateEmbeddings` (successful run): requires the client to be
present (else the method throws), then embeds every chunk batchwise. -/
def generateEmbeddings (svc : String → List ℝ) (s : RAGState) : Option RAGState :=
  match s.openai with
  | none => none
  | some _ =>
    let r := embedRun svc s.chunks s.embeddings
    some { s with chunks := r.1, embeddings := r.2 }

/-- The durable snapshot written by `saveToLocalStorage`. -/
structure RAGSnapshot where
  chunks : List DocumentChunk
  embeddings : List (String × List ℝ)
  lastUpdated : String

/-- `saveToLocalStorage`: serialize chunks and the map entries. -/
def saveToLocalStorage (s : RAGState) (ts : String) : RAGSnapshot :=
  { chunks := s.chunks, embeddings := s.embeddings, lastUpdated := ts }

/-- `loadFromLocalStorage` (snapshot present): replace chunks and rebuild
the map with `new Map(data.embeddings)`; the client field is untouched. -/
def loadFromLocalStorage (snap : RAGSnapshot) (s : RAGState) : RAGState :=
  { s with chunks := snap.chunks, embeddings := mapFromEntries snap.embeddings }

/-- The dual-bookkeeping invariant: any chunk that carries an embedding has
a map entry under its id holding that same vector. -/
def inSync (s : RAGState) : Prop :=
  ∀ c ∈ s.chunks, ∀ v, c.embedding = some v → mapGet s.embeddings c.id = some v

/-! ### Lemmas about the chunking loop -/

/-- Unfolding of the loop body on a non-empty suffix. -/
theorem buildChunks_cons (pageId : Option String) (title lastModified : String)
    (url : Option String) (properties : List (String × String)) (tot : Nat)
    (c : Char) (cs' : List Char) (idx : Nat) :
    buildChunks pageId title lastModified url properties tot (c :: cs') idx =
      mkChunk pageId title lastModified url properties tot ((c :: cs').take 1000) idx ::
        buildChunks pageId title lastModified url properties tot ((c :: cs').drop 800) (idx + 1) := by
  rw [buildChunks]

/-- Number of loop iterations: one chunk per window start, i.e.
`⌈length / 800⌉` chunks for a non-empty text. -/
theorem length_buildChunks (pageId : Option String) (title lastModified : String)
    (url : Option String) (properties : List (String × String)) (tot : Nat) :
    ∀ (n : Nat) (cs : List Char) (idx : Nat), cs.length = n → cs ≠ [] →
      (buildChunks pageId title lastModified url properties tot cs idx).length
        = (cs.length + 799) / 800 := by
  intro n
  induction n using Nat.strong_induction_on with
  | _ n ih =>
    intro cs idx hlen hne
    cases cs with
    | nil => exact absurd rfl hne
    | cons c cs' =>
      simp only [List.length_cons] at hlen
      rw [buildChunks_cons]
      by_cases hd : (c :: cs').drop 800 = []
      · have hle : cs'.length + 1 ≤ 800 := by
          have := congrArg List.length hd
          simp only [List.length_drop, List.length_cons, List.length_nil] at this
          omega
        rw [hd]
        simp only [buildChunks, List.length_cons, List.length_nil]
        omega
      · have hgt : 800 < cs'.length + 1 := by
          by_contra hcon
          exact hd (List.drop_eq_nil_of_le (by simp only [List.length_cons]; omega))
        have hdl : ((c :: cs').drop 800).length = cs'.length + 1 - 800 := by
          simp only [List.length_drop, List.length_cons]
        have hlt : ((c :: cs').drop 800).length < n := by omega
        rw [List.length_cons, ih _ hlt _ _ rfl hd, hdl]
        simp only [List.length_cons]
        omega

/-- Every chunk emitted by the loop carries the `totalChunks` value
computed once for the whole document. -/
theorem totalChunks_buildChunks (pageId : Option String) (title lastModified : String)
    (url : Option String) (properties : List (String × String)) (tot : Nat) :
    ∀ (n : Nat) (cs : List Char) (idx : Nat), cs.length = n →
      ∀ ch ∈ buildChunks pageId title lastModified url properties tot cs idx,
        ch.metadata.totalChunks = some tot := by
  intro n
  induction n using Nat.strong_induction_on with
  | _ n ih =>
    intro cs idx hlen ch hch
    cases cs with
    | nil => rw [buildChunks] at hch; exact absurd hch (List.not_mem_nil ch)
    | cons c cs' =>
      simp only [List.length_cons] at hlen
      rw [buildChunks_cons] at hch
      rcases List.mem_cons.mp hch with h | h
      · subst h; rfl
      · have hlt : ((c :: cs').drop 800).length < n := by
          simp only [List.length_drop, List.length_cons]
          omega
        exact ih _ hlt _ _ rfl ch h

/-- The `i`-th chunk of the loop is the window
`content.substring(800 * i, 800 * i + 1000)`. -/
theorem content_buildChunks (pageId : Option String) (title lastModified : String)
    (url : Option String) (properties : List (String × String)) (tot : Nat) :
    ∀ (n : Nat) (cs : List Char) (idx : Nat), cs.length = n →
      ∀ (i : Nat) (h : i < (buildChunks pageId title lastModified url properties tot cs idx).length),
        ((buildChunks pageId title lastModified url properties tot cs idx).get ⟨i, h⟩).content
          = String.mk ((cs.drop (800 * i)).take 1000) := by
  intro n
  induction n using Nat.strong_induction_on with
  | _ n ih =>
    intro cs idx hlen i h
    cases cs with
    | nil =>
      rw [buildChunks] at h
      exact absurd h (by simp)
    | cons c cs' =>
      simp only [List.length_cons] at hlen
      cases i with
      | zero =>
        simp only [List.get_eq_getElem]
        rw [List.getElem_of_eq (buildChunks_cons pageId title lastModified url properties tot c cs' idx) h]
        simp only [List.getElem_cons_zero]
        rfl
      | succ j =>
        have hlt : ((c :: cs').drop 800).length < n := by
          simp only [List.length_drop, List.length_cons]
          omega
        have h2 := h
        rw [buildChunks_cons] at h2
        simp only [List.length_cons] at h2
        have h' : j < (buildChunks pageId title lastModified url properties tot
            ((c :: cs').drop 800) (idx + 1)).length := Nat.lt_of_succ_lt_succ h2
        have key := ih _ hlt ((c :: cs').drop 800) (idx + 1) rfl j h'
        simp only [List.get_eq_getElem] at key ⊢
        rw [List.getElem_of_eq (buildChunks_cons pageId title lastModified url properties tot c cs' idx) h]
        simp only [List.getElem_cons_succ]
        rw [key, List.drop_drop]
        have harith : 800 * (j + 1) = 800 + 800 * j := by ring
        rw [harith]

/-- Claim C6: a text of length at most the chunk size (1000 characters) is
split into exactly one chunk with `chunkIndex = 0`, `totalChunks = 1`, whose
content is the entire input text. -/
theorem claim_C6 (content title : String) (pageId : Option String)
    (lastModified : String) (url : Option String)
    (properties : List (String × String))
    (h : content.data.length ≤ 1000) :
    splitIntoChunks content title pageId lastModified url properties =
      [{ id := pageId.getD "chunk" ++ "-0"
         content := content
         metadata :=
           { title := title
             pageId := pageId.getD "unknown"
             lastModified := lastModified
             url := url
             properties := properties
             chunkIndex := some 0
             totalChunks := some 1 }
         embedding := none }] := by
  simp only [splitIntoChunks]
  rw [if_pos h]

/-- Witness for C6 at the concrete text `"hello"`. -/
theorem claim_C6_witness :
    splitIntoChunks "hello" "T" none "2025-01-01" none [] =
      [{ id := "chunk-0"
         content := "hello"
         metadata :=
           { title := "T"
             pageId := "unknown"
             lastModified := "2025-01-01"
             url := none
             properties := []
             chunkIndex := some 0
             totalChunks := some 1 }
         embedding := none }] :=
  claim_C6 "hello" "T" none "2025-01-01" none [] (by decide)

/-- Claim C2: for a text longer than the chunk size (1000), the chunker
emits exactly `⌈L / 800⌉` chunks, every chunk's `totalChunks` field equals
that count, chunk `i` is the window `[800 i, 800 i + 1000)` of the text
(so consecutive chunks share exactly the 200-character overlap, the shared
part being shorter only for a final chunk shorter than the overlap), and a
1500-character text yields two chunks covering `[0, 1000)` and `[800, 1500)`. -/
theorem claim_C2 :
    (∀ (content title : String) (pageId : Option String)
       (lastModified : String) (url : Option String)
       (properties : List (String × String)),
       1000 < content.data.length →
       (splitIntoChunks content title pageId lastModified url properties).length
           = (content.data.length + 799) / 800
       ∧ (∀ ch ∈ splitIntoChunks content title pageId lastModified url properties,
           ch.metadata.totalChunks = some ((content.data.length + 799) / 800))
       ∧ (∀ (i : Nat)
           (h : i < (splitIntoChunks content title pageId lastModified url properties).length),
           ((splitIntoChunks content title pageId lastModified url properties).get ⟨i, h⟩).content
             = String.mk ((content.data.drop (800 * i)).take 1000))
       ∧ (∀ (i : Nat)
           (h : i < (splitIntoChunks content title pageId lastModified url properties).length)
           (h' : i + 1 < (splitIntoChunks content title pageId lastModified url properties).length),
           ((splitIntoChunks content title pageId lastModified url properties).get
               ⟨i, h⟩).content.data.drop 800
             = ((splitIntoChunks content title pageId lastModified url properties).get
               ⟨i + 1, h'⟩).content.data.take 200
           ∧ (200 ≤ ((splitIntoChunks content title pageId lastModified url properties).get
                 ⟨i + 1, h'⟩).content.data.length →
               (((splitIntoChunks content title pageId lastModified url properties).get
                 ⟨i, h⟩).content.data.drop 800).length = 200)))
    ∧ (∀ (title : String) (pageId : Option String) (lastModified : String)
        (url : Option String) (properties : List (String × String)),
        (splitIntoChunks (String.mk (List.replicate 1500 'A')) title pageId
            lastModified url properties).length = 2
        ∧ (∀ h0 : 0 < (splitIntoChunks (String.mk (List.replicate 1500 'A')) title pageId
              lastModified url properties).length,
            ((splitIntoChunks (String.mk (List.replicate 1500 'A')) title pageId
              lastModified url properties).get ⟨0, h0⟩).content
              = String.mk (List.replicate 1000 'A'))
        ∧ (∀ h1 : 1 < (splitIntoChunks (String.mk (List.replicate 1500 'A')) title pageId
              lastModified url properties).length,
            ((splitIntoChunks (String.mk (List.replicate 1500 'A')) title pageId
              lastModified url properties).get ⟨1, h1⟩).content
              = String.mk (List.replicate 700 'A'))) := by
  have main : ∀ (content title : String) (pageId : Option String)
      (lastModified : String) (url : Option String)
      (properties : List (String × String)),
      1000 < content.data.length →
      splitIntoChunks content title pageId lastModified url properties
        = buildChunks pageId title lastModified url properties
            ((content.data.length + 799) / 800) content.data 0 := by
    intro content title pageId lastModified url properties hL
    simp only [splitIntoChunks]
    rw [if_neg (by omega)]
    have : content.data.length + 800 - 1 = content.data.length + 799 := by omega
    rw [this]
  have hcontent : ∀ (content title : String) (pageId : Option String)
      (lastModified : String) (url : Option String)
      (properties : List (String × String)),
      1000 < content.data.length →
      ∀ (j : Nat)
        (hj : j < (splitIntoChunks content title pageId lastModified url properties).length),
        ((splitIntoChunks content title pageId lastModified url properties).get ⟨j, hj⟩).content
          = String.mk ((content.data.drop (800 * j)).take 1000) := by
    intro content title pageId lastModified url properties hL j hj
    have hj2 : j < (buildChunks pageId title lastModified url properties
        ((content.data.length + 799) / 800) content.data 0).length := by
      rw [← main content title pageId lastModified url properties hL]
      exact hj
    have key := content_buildChunks pageId title lastModified url properties
      ((content.data.length + 799) / 800) _ content.data 0 rfl j hj2
    simp only [List.get_eq_getElem] at key ⊢
    rw [List.getElem_of_eq (main content title pageId lastModified url properties hL) hj]
    exact key
  constructor
  · intro content title pageId lastModified url properties hL
    have hne : content.data ≠ [] := by
      intro hc
      rw [hc] at hL
      simp at hL
    refine ⟨?_, ?_, ?_, ?_⟩
    · rw [main content title pageId lastModified url properties hL]
      exact length_buildChunks pageId title lastModified url properties _ _ _ 0 rfl hne
    · intro ch hch
      rw [main content title pageId lastModified url properties hL] at hch
      exact totalChunks_buildChunks pageId title lastModified url properties _ _ _ 0 rfl ch hch
    · exact hcontent content title pageId lastModified url properties hL
    · intro i h h'
      rw [hcontent content title pageId lastModified url properties hL i h,
          hcontent content title pageId lastModified url properties hL (i + 1) h']
      constructor
      · show (((content.data.drop (800 * i)).take 1000).drop 800)
            = ((content.data.drop (800 * (i + 1))).take 1000).take 200
        rw [List.drop_take, List.drop_drop, List.take_take]
        have e1 : (1000 : Nat) - 800 = 200 := by norm_num
        have e2 : 800 * i + 800 = 800 * (i + 1) := by ring
        have e3 : min 200 1000 = 200 := by norm_num
        rw [e1, e2, e3]
      · intro hlen
        simp only [List.length_take, List.length_drop] at hlen ⊢
        have harith : 800 * (i + 1) = 800 * i + 800 := by ring
        rw [harith] at hlen
        omega
  · intro title pageId lastModified url properties
    have hdata : (String.mk (List.replicate 1500 'A')).data = List.replicate 1500 'A' := rfl
    have hL : 1000 < (String.mk (List.replicate 1500 'A')).data.length := by
      rw [hdata, List.length_replicate]
      norm_num
    have hlen : (splitIntoChunks (String.mk (List.replicate 1500 'A')) title pageId
        lastModified url properties).length = 2 := by
      rw [main (String.mk (List.replicate 1500 'A')) title pageId lastModified url properties hL]
      rw [length_buildChunks pageId title lastModified url properties _ _ _ 0 rfl
          (List.ne_nil_of_length_pos (by rw [hdata, List.length_replicate]; norm_num))]
      rw [hdata, List.length_replicate]
    refine ⟨hlen, ?_, ?_⟩
    · intro h0
      rw [hcontent (String.mk (List.replicate 1500 'A')) title pageId lastModified url
          properties hL 0 h0]
      rw [hdata]
      norm_num
    · intro h1
      rw [hcontent (String.mk (List.replicate 1500 'A')) title pageId lastModified url
          properties hL 1 h1]
      rw [hdata]
      norm_num

/-- Witness for C2: the 1500-character text, with the length hypothesis
discharged concretely. -/
theorem claim_C2_witness :
    (splitIntoChunks (String.mk (List.replicate 1500 'A')) "T" none "lm" none []).length
      = (1500 + 799) / 800 := by
  have hdata : (String.mk (List.replicate 1500 'A')).data = List.replicate 1500 'A' := rfl
  have := (claim_C2.1 (String.mk (List.replicate 1500 'A')) "T" none "lm" none []
    (by rw [hdata, List.length_replicate]; norm_num)).1
  rw [hdata, List.length_replicate] at this
  exact this

/-! ### Lemmas about `cosineSimilarity` -/

theorem listDot_comm : ∀ (a b : List ℝ), listDot a b = listDot b a := by
  intro a
  induction a with
  | nil => intro b; cases b <;> simp [listDot]
  | cons x xs ih =>
    intro b
    cases b with
    | nil => simp [listDot]
    | cons y ys =>
      simp only [listDot, List.zipWith_cons_cons, List.sum_cons] at *
      rw [mul_comm, ih ys]

theorem listDot_self_nonneg (a : List ℝ) : 0 ≤ listDot a a := by
  induction a with
  | nil => simp [listDot]
  | cons x xs ih =>
    simp only [listDot, List.zipWith_cons_cons, List.sum_cons] at *
    exact add_nonneg (mul_self_nonneg x) ih

theorem listDot_self_pos (a : List ℝ) (h : ∃ x ∈ a, x ≠ 0) : 0 < listDot a a := by
  induction a with
  | nil => simp at h
  | cons x xs ih =>
    simp only [listDot, List.zipWith_cons_cons, List.sum_cons] at *
    rcases h with ⟨y, hy, hy0⟩
    rcases List.mem_cons.mp hy with rfl | hmem
    · have hpos : 0 < y * y := mul_self_pos.mpr hy0
      exact add_pos_of_pos_of_nonneg hpos (listDot_self_nonneg xs)
    · exact add_pos_of_nonneg_of_pos (mul_self_nonneg x) (ih ⟨y, hmem, hy0⟩)

/-- The accumulator as a `Finset.range` sum, for equal-length vectors. -/
theorem listDot_eq_sum : ∀ (a b : List ℝ), a.length = b.length →
    listDot a b = ∑ i ∈ Finset.range a.length, a.getD i 0 * b.getD i 0 := by
  intro a
  induction a with
  | nil =>
    intro b h
    simp [listDot]
  | cons x xs ih =>
    intro b h
    cases b with
    | nil => simp at h
    | cons y ys =>
      simp only [List.length_cons] at h
      have h' : xs.length = ys.length := by omega
      show x * y + listDot xs ys = _
      simp only [List.length_cons]
      rw [Finset.sum_range_succ']
      simp only [List.getD_cons_succ, List.getD_cons_zero]
      rw [ih ys h']
      ring

/-- Cauchy–Schwarz for the loop accumulator. -/
theorem listDot_sq_le (a b : List ℝ) (h : a.length = b.length) :
    listDot a b * listDot a b ≤ listDot a a * listDot b b := by
  rw [listDot_eq_sum a b h, listDot_eq_sum a a rfl, listDot_eq_sum b b rfl, ← h]
  have key := Finset.sum_mul_sq_le_sq_mul_sq (Finset.range a.length)
    (fun i => a.getD i 0) (fun i => b.getD i 0)
  simpa [pow_two] using key

/-- Claim C7: `cosineSimilarity` is symmetric; it is bounded in `[-1, 1]`
for non-zero vectors of equal length; a non-zero vector has similarity `1`
with itself (exactly, in the real-number model); vectors of different
lengths have similarity exactly `0`. -/
theorem claim_C7 :
    (∀ a b : List ℝ, cosineSimilarity a b = cosineSimilarity b a)
    ∧ (∀ a b : List ℝ, a.length = b.length → (∃ x ∈ a, x ≠ 0) → (∃ x ∈ b, x ≠ 0) →
        -1 ≤ cosineSimilarity a b ∧ cosineSimilarity a b ≤ 1)
    ∧ (∀ v : List ℝ, (∃ x ∈ v, x ≠ 0) → cosineSimilarity v v = 1)
    ∧ (∀ a b : List ℝ, a.length ≠ b.length → cosineSimilarity a b = 0) := by
  refine ⟨?_, ?_, ?_, ?_⟩
  · intro a b
    by_cases hl : a.length = b.length
    · simp only [cosineSimilarity]
      rw [if_neg (fun hc => hc hl), if_neg (fun hc => hc hl.symm)]
      rw [listDot_comm a b, mul_comm]
    · simp only [cosineSimilarity]
      rw [if_pos hl, if_pos (fun hc => hl hc.symm)]
  · intro a b hl ha hb
    have hNA : 0 < listDot a a := listDot_self_pos a ha
    have hNB : 0 < listDot b b := listDot_self_pos b hb
    have hP : 0 < Real.sqrt (listDot a a) * Real.sqrt (listDot b b) :=
      mul_pos (Real.sqrt_pos.mpr hNA) (Real.sqrt_pos.mpr hNB)
    have hPP : Real.sqrt (listDot a a) * Real.sqrt (listDot b b) *
        (Real.sqrt (listDot a a) * Real.sqrt (listDot b b))
          = listDot a a * listDot b b := by
      rw [mul_mul_mul_comm, Real.mul_self_sqrt hNA.le, Real.mul_self_sqrt hNB.le]
    have hCS := listDot_sq_le a b hl
    have hub : listDot a b ≤ Real.sqrt (listDot a a) * Real.sqrt (listDot b b) := by
      nlinarith [sq_nonneg (listDot a b - Real.sqrt (listDot a a) * Real.sqrt (listDot b b))]
    have hlb : -(Real.sqrt (listDot a a) * Real.sqrt (listDot b b)) ≤ listDot a b := by
      nlinarith [sq_nonneg (listDot a b + Real.sqrt (listDot a a) * Real.sqrt (listDot b b))]
    simp only [cosineSimilarity]
    rw [if_neg (fun hc => hc hl)]
    constructor
    · rw [le_div_iff₀ hP]
      linarith
    · rw [div_le_one hP]
      exact hub
  · intro v hv
    have hNV : 0 < listDot v v := listDot_self_pos v hv
    simp only [cosineSimilarity]
    rw [if_neg (fun hc => hc rfl), Real.mul_self_sqrt hNV.le, div_self hNV.ne']
  · intro a b hl
    simp only [cosineSimilarity]
    rw [if_pos hl]

/-- Witness for C7 at concrete vectors. -/
theorem claim_C7_witness :
    (-1 ≤ cosineSimilarity [(3 : ℝ)] [(4 : ℝ)] ∧ cosineSimilarity [(3 : ℝ)] [(4 : ℝ)] ≤ 1)
    ∧ cosineSimilarity [(2 : ℝ)] [(2 : ℝ)] = 1
    ∧ cosineSimilarity [(1 : ℝ), 2] [(3 : ℝ)] = 0 :=
  ⟨claim_C7.2.1 [3] [4] rfl ⟨3, by simp, by norm_num⟩ ⟨4, by simp, by norm_num⟩,
   claim_C7.2.2.1 [2] ⟨2, by simp, by norm_num⟩,
   claim_C7.2.2.2 [1, 2] [3] (by simp)⟩

/-! ### Lemmas about the scoring loop -/

/-- Any pushed result wraps the scored chunk itself, which necessarily has
an embedding (the loop `continue`s on chunks without one). -/
theorem scoreChunk_some_shape (qe : List ℝ) (q : String) (now : Int)
    (pd : String → Option Int) (c : DocumentChunk) (r : SearchResult)
    (h : scoreChunk qe q now pd c = some r) :
    r.chunk = c ∧ ∃ emb, c.embedding = some emb := by
  cases hemb : c.embedding with
  | none => simp [scoreChunk, hemb] at h
  | some emb =>
    refine ⟨?_, emb, rfl⟩
    simp only [scoreChunk, hemb] at h
    split at h
    · split at h
      · split at h
        · cases h; rfl
        · split at h
          · exact absurd h (by simp)
          · cases h; rfl
      · cases h; rfl
    · cases h; rfl

/-- With no temporal keyword matched, an embedded chunk is pushed with the
raw cosine similarity as its score. -/
theorem scoreChunk_no_temporal (qe : List ℝ) (q : String) (now : Int)
    (pd : String → Option Int) (c : DocumentChunk) (emb : List ℝ)
    (hemb : c.embedding = some emb)
    (hre : isRecentQuery q = false) (hup : isUpcomingQuery q = false)
    (hpa : isPastQuery q = false) :
    scoreChunk qe q now pd c = some ⟨c, cosineSimilarity qe emb⟩ := by
  simp [scoreChunk, hemb, hre, hup, hpa]

/-- The comparator order is transitive. -/
theorem scoreLE_trans (a b c : SearchResult)
    (h1 : scoreLE a b) (h2 : scoreLE b c) : scoreLE a c := by
  simp only [scoreLE, decide_eq_true_eq] at *
  exact le_trans h2 h1

/-- The comparator order is total. -/
theorem scoreLE_total (a b : SearchResult) : scoreLE a b || scoreLE b a := by
  simp only [scoreLE, Bool.or_eq_true, decide_eq_true_eq]
  exact le_total b.score a.score

/-- Claim C3: every returned result's chunk carries an embedding, the
returned list is sorted in descending score order, and at most `topK`
results are returned. -/
theorem claim_C3 (chunks : List DocumentChunk) (qe : List ℝ) (q : String)
    (topK : Nat) (now : Int) (pd : String → Option Int) :
    (∀ r ∈ searchSimilarChunks chunks qe q topK now pd,
        ∃ emb, r.chunk.embedding = some emb)
    ∧ (searchSimilarChunks chunks qe q topK now pd).Pairwise
        (fun a b => b.score ≤ a.score)
    ∧ (searchSimilarChunks chunks qe q topK now pd).length ≤ topK := by
  refine ⟨?_, ?_, ?_⟩
  · intro r hr
    have hr2 : r ∈ (chunks.filterMap (scoreChunk qe q now pd)).mergeSort scoreLE :=
      List.mem_of_mem_take hr
    have hr3 : r ∈ chunks.filterMap (scoreChunk qe q now pd) :=
      List.mem_mergeSort.mp hr2
    rcases List.mem_filterMap.mp hr3 with ⟨c, _, hc⟩
    rcases scoreChunk_some_shape qe q now pd c r hc with ⟨hchunk, emb, hemb⟩
    exact ⟨emb, by rw [hchunk]; exact hemb⟩
  · have hs : ((chunks.filterMap (scoreChunk qe q now pd)).mergeSort scoreLE).Pairwise
        (fun a b => scoreLE a b) :=
      List.sorted_mergeSort scoreLE_trans scoreLE_total _
    have hs2 : ((chunks.filterMap (scoreChunk qe q now pd)).mergeSort scoreLE).Pairwise
        (fun a b => b.score ≤ a.score) :=
      hs.imp (fun hab => by simpa [scoreLE] using hab)
    exact hs2.sublist (List.take_sublist _ _)
  · rw [searchSimilarChunks]
    exact List.length_take_le topK _

/-- Witness for C3 on a one-chunk store: the single returned result's
chunk still holds its embedding. -/
theorem claim_C3_witness :
    ∃ emb,
      (SearchResult.mk
        ⟨"c-0", "hi", ⟨"T", "p", "lm", none, [], some 0, some 1⟩, some [(1 : ℝ)]⟩
        (cosineSimilarity [(1 : ℝ)] [(1 : ℝ)])).chunk.embedding = some emb := by
  have heval : searchSimilarChunks
      [⟨"c-0", "hi", ⟨"T", "p", "lm", none, [], some 0, some 1⟩, some [(1 : ℝ)]⟩]
      [(1 : ℝ)] "hello" 5 0 (fun _ => none) =
      [SearchResult.mk
        ⟨"c-0", "hi", ⟨"T", "p", "lm", none, [], some 0, some 1⟩, some [(1 : ℝ)]⟩
        (cosineSimilarity [(1 : ℝ)] [(1 : ℝ)])] := by
    rw [searchSimilarChunks]
    rw [show List.filterMap (scoreChunk [(1 : ℝ)] "hello" 0 (fun _ => none))
        [⟨"c-0", "hi", ⟨"T", "p", "lm", none, [], some 0, some 1⟩, some [(1 : ℝ)]⟩]
        = [SearchResult.mk
            ⟨"c-0", "hi", ⟨"T", "p", "lm", none, [], some 0, some 1⟩, some [(1 : ℝ)]⟩
            (cosineSimilarity [(1 : ℝ)] [(1 : ℝ)])] from by
      rw [List.filterMap_cons]
      rw [scoreChunk_no_temporal _ _ _ _ _ [(1 : ℝ)] rfl (by decide) (by decide) (by decide)]
      rfl]
    rw [List.mergeSort_singleton]
    rfl
  exact (claim_C3
      [⟨"c-0", "hi", ⟨"T", "p", "lm", none, [], some 0, some 1⟩, some [(1 : ℝ)]⟩]
      [(1 : ℝ)] "hello" 5 0 (fun _ => none)).1 _
    (heval ▸ List.mem_singleton.mpr rfl)

/-- Claim C4: for a query matching none of the three temporal keyword
families, every returned score is exactly the raw cosine similarity with
the result chunk's embedding, and every embedded chunk is scored (none is
dropped for date reasons). -/
theorem claim_C4 (chunks : List DocumentChunk) (qe : List ℝ) (q : String)
    (topK : Nat) (now : Int) (pd : String → Option Int)
    (hre : isRecentQuery q = false) (hup : isUpcomingQuery q = false)
    (hpa : isPastQuery q = false) :
    (∀ r ∈ searchSimilarChunks chunks qe q topK now pd,
        ∃ emb, r.chunk.embedding = some emb ∧ r.score = cosineSimilarity qe emb)
    ∧ (∀ c ∈ chunks, ∀ emb, c.embedding = some emb →
        (⟨c, cosineSimilarity qe emb⟩ : SearchResult) ∈
          chunks.filterMap (scoreChunk qe q now pd)) := by
  constructor
  · intro r hr
    have hr3 : r ∈ chunks.filterMap (scoreChunk qe q now pd) :=
      List.mem_mergeSort.mp (List.mem_of_mem_take hr)
    rcases List.mem_filterMap.mp hr3 with ⟨c, _, hc⟩
    cases hemb : c.embedding with
    | none => rw [scoreChunk, hemb] at hc; exact absurd hc (by simp)
    | some emb =>
      rw [scoreChunk_no_temporal qe q now pd c emb hemb hre hup hpa] at hc
      cases hc
      exact ⟨emb, hemb, rfl⟩
  · intro c hmem emb hemb
    exact List.mem_filterMap.mpr
      ⟨c, hmem, scoreChunk_no_temporal qe q now pd c emb hemb hre hup hpa⟩

/-- Witness for C4: a non-temporal query scores the one embedded chunk with
its raw similarity. -/
theorem claim_C4_witness :
    (SearchResult.mk
      ⟨"c-0", "hi", ⟨"T", "p", "lm", none, [], some 0, some 1⟩, some [(2 : ℝ)]⟩
      (cosineSimilarity [(1 : ℝ)] [(2 : ℝ)])) ∈
      List.filterMap (scoreChunk [(1 : ℝ)] "hello" 0 (fun _ => none))
        [⟨"c-0", "hi", ⟨"T", "p", "lm", none, [], some 0, some 1⟩, some [(2 : ℝ)]⟩] :=
  (claim_C4
      [⟨"c-0", "hi", ⟨"T", "p", "lm", none, [], some 0, some 1⟩, some [(2 : ℝ)]⟩]
      [(1 : ℝ)] "hello" 5 0 (fun _ => none)
      (by decide) (by decide) (by decide)).2
    _ (List.mem_singleton.mpr rfl) [(2 : ℝ)] rfl

/-- Claim C5: date extraction accepts only dates whose parsed year is in
`[2020, 2030]`, month in `[1, 12]` and day in `[1, 31]` (metadata-parsed
dates are checked for the year range); consequently an upcoming-intent
query against a chunk whose only date-like text is `2031-01-01` (with no
metadata properties) sees an empty date list and scores the chunk at
similarity × 0.5. -/
theorem claim_C5 :
    (∀ (pd : String → Option Int) (chunk : DocumentChunk),
       ∀ t ∈ extractDatesFromChunk pd chunk,
         (∃ y m d : Int, t = jsMakeDate y (m - 1) d ∧ 2020 ≤ y ∧ y ≤ 2030
            ∧ 1 ≤ m ∧ m ≤ 12 ∧ 1 ≤ d ∧ d ≤ 31)
         ∨ (2020 ≤ jsGetFullYear t ∧ jsGetFullYear t ≤ 2030))
    ∧ (∀ (pd : String → Option Int) (qe e : List ℝ) (now : Int),
        extractDatesFromChunk pd
          ⟨"c-0", "2031-01-01", ⟨"T", "p", "lm", none, [], some 0, some 1⟩, some e⟩ = []
        ∧ searchSimilarChunks
            [⟨"c-0", "2031-01-01", ⟨"T", "p", "lm", none, [], some 0, some 1⟩, some e⟩]
            qe "다가오는 일정" 5 now pd
          = [⟨⟨"c-0", "2031-01-01", ⟨"T", "p", "lm", none, [], some 0, some 1⟩, some e⟩,
              cosineSimilarity qe e * 0.5⟩]) := by
  have hcontent : ∀ (pd : String → Option Int) (chunk : DocumentChunk) (t : Int)
      (tris : List (Nat × Nat × Nat)),
      t ∈ tris.filterMap (fun tri =>
        let year : Int := tri.1
        let month : Int := (tri.2.1 : Int) - 1
        let day : Int := tri.2.2
        if 2020 ≤ year ∧ year ≤ 2030 ∧ 0 ≤ month ∧ month ≤ 11 ∧ 1 ≤ day ∧ day ≤ 31 then
          some (jsMakeDate year month day)
        else none) →
      ∃ y m d : Int, t = jsMakeDate y (m - 1) d ∧ 2020 ≤ y ∧ y ≤ 2030
        ∧ 1 ≤ m ∧ m ≤ 12 ∧ 1 ≤ d ∧ d ≤ 31 := by
    intro pd chunk t tris ht
    rcases List.mem_filterMap.mp ht with ⟨tri, _, hf⟩
    simp only at hf
    split at hf
    · rename_i hguard
      cases hf
      refine ⟨(tri.1 : Int), (tri.2.1 : Int), (tri.2.2 : Int), ?_, ?_, ?_, ?_, ?_, ?_, ?_⟩
      · rfl
      all_goals omega
    · exact absurd hf (by simp)
  constructor
  · intro pd chunk t ht
    simp only [extractDatesFromChunk] at ht
    rcases List.mem_append.mp ht with hc | hmeta
    · rcases List.mem_append.mp hc with hk | hi
      · exact Or.inl (hcontent pd chunk t _ hk)
      · exact Or.inl (hcontent pd chunk t _ hi)
    · rcases List.mem_filterMap.mp hmeta with ⟨kv, _, hf⟩
      repeat' split at hf
      all_goals first
        | exact Option.noConfusion hf
        | (rename_i hyr
           cases hf
           exact Or.inr hyr)
  · intro pd qe e now
    have hko : scanKorean ("2031-01-01".data) = [] := by decide
    have hiso : scanISO ("2031-01-01".data) = [(2031, 1, 1)] := by decide
    have hdates : extractDatesFromChunk pd
        ⟨"c-0", "2031-01-01", ⟨"T", "p", "lm", none, [], some 0, some 1⟩, some e⟩ = [] := by
      simp only [extractDatesFromChunk, hko, hiso, List.filterMap_nil,
        List.filterMap_cons]
      norm_num
    refine ⟨hdates, ?_⟩
    have hscore : scoreChunk qe "다가오는 일정" now pd
        ⟨"c-0", "2031-01-01", ⟨"T", "p", "lm", none, [], some 0, some 1⟩, some e⟩
        = some ⟨⟨"c-0", "2031-01-01", ⟨"T", "p", "lm", none, [], some 0, some 1⟩, some e⟩,
            cosineSimilarity qe e * 0.5⟩ := by
      rw [scoreChunk]
      simp only [hdates]
      rw [if_pos (by decide), if_neg (by simp)]
    rw [searchSimilarChunks, List.filterMap_cons, hscore, List.filterMap_nil,
      List.mergeSort_singleton]
    rfl

/-- Witness for C5 on a chunk containing the ISO date `2025-06-27`: the one
extracted date satisfies the accepted ranges. -/
theorem claim_C5_witness :
    (∃ y m d : Int, jsMakeDate 2025 5 27 = jsMakeDate y (m - 1) d ∧ 2020 ≤ y ∧ y ≤ 2030
        ∧ 1 ≤ m ∧ m ≤ 12 ∧ 1 ≤ d ∧ d ≤ 31)
    ∨ (2020 ≤ jsGetFullYear (jsMakeDate 2025 5 27)
        ∧ jsGetFullYear (jsMakeDate 2025 5 27) ≤ 2030) :=
  claim_C5.1 (fun _ => none)
    ⟨"c-0", "2025-06-27", ⟨"T", "p", "lm", none, [], some 0, some 1⟩, none⟩
    (jsMakeDate 2025 5 27) (by decide)

/-- Claim C1 (amended): for a *recent* query and an embedded chunk whose
extracted dates are non-empty but all outside the ±7-day window, the chunk
is dropped iff **some** extracted date has a year before 2024 (the source
tests `chunkDates.some(...)`, not all dates); when no extracted date is
pre-2024 the chunk is retained with score = similarity × 0.3. -/
theorem claim_C1_amended (qe : List ℝ) (q : String) (now : Int)
    (pd : String → Option Int) (c : DocumentChunk) (emb : List ℝ)
    (hre : isRecentQuery q = true)
    (hemb : c.embedding = some emb)
    (hne : extractDatesFromChunk pd c ≠ [])
    (hwin : ∀ t ∈ extractDatesFromChunk pd c,
        ¬(now - 7 * 24 * 60 * 60 * 1000 ≤ t ∧ t ≤ now + 7 * 24 * 60 * 60 * 1000)) :
    (scoreChunk qe q now pd c = none
        ↔ ∃ t ∈ extractDatesFromChunk pd c, jsGetFullYear t < 2024)
    ∧ ((∀ t ∈ extractDatesFromChunk pd c, 2024 ≤ jsGetFullYear t) →
        scoreChunk qe q now pd c = some ⟨c, cosineSimilarity qe emb * 0.3⟩) := by
  have hdm : (extractDatesFromChunk pd c).any (dateMatchCheck q now) = false := by
    rw [List.any_eq_false]
    intro t ht
    have hw := hwin t ht
    simp only [dateMatchCheck, hre, if_true]
    by_cases hA : now - 7 * 24 * 60 * 60 * 1000 ≤ t
    · have hB : ¬(t ≤ now + 7 * 24 * 60 * 60 * 1000) := fun hb => hw ⟨hA, hb⟩
      simp
      omega
    · simp
      omega
  have hlen : (extractDatesFromChunk pd c).length ≠ 0 := by
    simpa [List.length_eq_zero] using hne
  have hmain : scoreChunk qe q now pd c =
      (if (extractDatesFromChunk pd c).any staleYearCheck then none
       else some ⟨c, cosineSimilarity qe emb * 0.3⟩) := by
    simp only [scoreChunk, hemb, hre, Bool.true_or, if_true, hdm, Bool.false_eq_true,
      if_false, Bool.true_and]
    rw [if_pos hlen]
  constructor
  · rw [hmain]
    by_cases hst : (extractDatesFromChunk pd c).any staleYearCheck = true
    · rw [if_pos hst]
      constructor
      · intro _
        rcases List.any_eq_true.mp hst with ⟨t, ht, hy⟩
        exact ⟨t, ht, by simpa [staleYearCheck] using hy⟩
      · intro _
        rfl
    · rw [if_neg hst]
      constructor
      · intro hcon
        exact absurd hcon (by simp)
      · intro ⟨t, ht, hy⟩
        rw [Bool.not_eq_true, List.any_eq_false] at hst
        have := hst t ht
        simp [staleYearCheck, hy] at this
  · intro hall
    rw [hmain]
    have hst : (extractDatesFromChunk pd c).any staleYearCheck = false := by
      rw [List.any_eq_false]
      intro t ht
      simp [staleYearCheck]
      exact hall t ht
    rw [hst]
    simp

/-- Counterexample to claim C1 as stated: a *recent* query and a chunk
whose extracted dates are `2022-06-15` and `2030-06-15`, with `now` on
`2026-06-15`. No date lies in the ±7-day window and **not every** date has
a year before 2024, so the claim as stated says the chunk is retained with
score × 0.3 — but the code drops it, because **one** date is pre-2024. -/
theorem claim_C1_counterexample :
    isRecentQuery "최근 일정" = true
    ∧ extractDatesFromChunk (fun _ => none)
        ⟨"c-0", "2022-06-15 2030-06-15", ⟨"T", "p", "lm", none, [], some 0, some 1⟩,
          some [(1 : ℝ)]⟩ ≠ []
    ∧ (∀ t ∈ extractDatesFromChunk (fun _ => none)
          ⟨"c-0", "2022-06-15 2030-06-15", ⟨"T", "p", "lm", none, [], some 0, some 1⟩,
            some [(1 : ℝ)]⟩,
        ¬(jsMakeDate 2026 5 15 - 7 * 24 * 60 * 60 * 1000 ≤ t
            ∧ t ≤ jsMakeDate 2026 5 15 + 7 * 24 * 60 * 60 * 1000))
    ∧ ¬(∀ t ∈ extractDatesFromChunk (fun _ => none)
          ⟨"c-0", "2022-06-15 2030-06-15", ⟨"T", "p", "lm", none, [], some 0, some 1⟩,
            some [(1 : ℝ)]⟩,
        jsGetFullYear t < 2024)
    ∧ scoreChunk [(1 : ℝ)] "최근 일정" (jsMakeDate 2026 5 15) (fun _ => none)
        ⟨"c-0", "2022-06-15 2030-06-15", ⟨"T", "p", "lm", none, [], some 0, some 1⟩,
          some [(1 : ℝ)]⟩ = none := by
  refine ⟨by decide, by decide, by decide, by decide, ?_⟩
  rfl

/-- Witness for the amended C1: a chunk dated `2025-01-01` (outside the
window, not pre-2024) is retained at similarity × 0.3. -/
theorem claim_C1_witness :
    scoreChunk [(1 : ℝ)] "최근 행사" (jsMakeDate 2026 5 15) (fun _ => none)
        ⟨"c-0", "2025-01-01", ⟨"T", "p", "lm", none, [], some 0, some 1⟩, some [(1 : ℝ)]⟩
      = some ⟨⟨"c-0", "2025-01-01", ⟨"T", "p", "lm", none, [], some 0, some 1⟩,
          some [(1 : ℝ)]⟩, cosineSimilarity [(1 : ℝ)] [(1 : ℝ)] * 0.3⟩ :=
  (claim_C1_amended [(1 : ℝ)] "최근 행사" (jsMakeDate 2026 5 15) (fun _ => none)
    ⟨"c-0", "2025-01-01", ⟨"T", "p", "lm", none, [], some 0, some 1⟩, some [(1 : ℝ)]⟩
    [(1 : ℝ)] (by decide) rfl (by decide) (by decide)).2 (by decide)

/-! ### Lemmas about the id→vector map and the embedding run -/

theorem mapGet_mapSet_self (m : List (String × List ℝ)) (k : String) (v : List ℝ) :
    mapGet (mapSet m k v) k = some v := by
  induction m with
  | nil => simp [mapSet, mapGet]
  | cons kv rest ih =>
    by_cases h : kv.1 = k
    · simp [mapSet, mapGet, h]
    · simp [mapSet, mapGet, h, ih]

theorem mapGet_mapSet_ne (m : List (String × List ℝ)) (k' k : String) (v : List ℝ)
    (h : k' ≠ k) : mapGet (mapSet m k' v) k = mapGet m k := by
  induction m with
  | nil => simp [mapSet, mapGet, h]
  | cons kv rest ih =>
    by_cases hkv : kv.1 = k'
    · simp [mapSet, mapGet, hkv, h]
    · simp only [mapSet, hkv, if_false]
      by_cases hk : kv.1 = k
      · simp [mapGet, hk]
      · simp [mapGet, hk, ih]

/-- Folding the batch setter over chunks not containing key `k` leaves
`k`'s entry unchanged. -/
theorem mapGet_foldl_not_mem (svc : String → List ℝ) (k : String) :
    ∀ (l : List DocumentChunk) (m : List (String × List ℝ)),
      k ∉ l.map (fun c => c.id) →
      mapGet (l.foldl (fun acc ch => mapSet acc ch.id (svc ch.content)) m) k = mapGet m k := by
  intro l
  induction l with
  | nil => intro m _; rfl
  | cons c rest ih =>
    intro m hk
    simp only [List.map_cons, List.mem_cons, not_or] at hk
    simp only [List.foldl_cons]
    rw [ih _ hk.2, mapGet_mapSet_ne _ _ _ _ (fun hc => hk.1 hc.symm)]

/-- After folding the batch setter, each batch chunk's id maps to its
service vector (given unique ids within the batch). -/
theorem mapGet_foldl_batch (svc : String → List ℝ) :
    ∀ (l : List DocumentChunk) (m : List (String × List ℝ)),
      (l.map (fun c => c.id)).Nodup →
      ∀ c ∈ l,
        mapGet (l.foldl (fun acc ch => mapSet acc ch.id (svc ch.content)) m) c.id
          = some (svc c.content) := by
  intro l
  induction l with
  | nil => intro m _ c hc; exact absurd hc (List.not_mem_nil c)
  | cons c0 rest ih =>
    intro m hnd c hc
    simp only [List.map_cons, List.nodup_cons] at hnd
    simp only [List.foldl_cons]
    rcases List.mem_cons.mp hc with rfl | hmem
    · rw [mapGet_foldl_not_mem svc c.id rest _ hnd.1, mapGet_mapSet_self]
    · exact ih _ hnd.2 c hmem

/-- Unfolding of the batch loop on a non-empty chunk list. -/
theorem embedRun_cons (svc : String → List ℝ) (c : DocumentChunk)
    (cs : List DocumentChunk) (m : List (String × List ℝ)) :
    embedRun svc (c :: cs) m =
      (((c :: cs).take 100).map (fun ch => { ch with embedding := some (svc ch.content) }) ++
          (embedRun svc ((c :: cs).drop 100)
            (((c :: cs).take 100).foldl (fun acc ch => mapSet acc ch.id (svc ch.content)) m)).1,
        (embedRun svc ((c :: cs).drop 100)
          (((c :: cs).take 100).foldl (fun acc ch => mapSet acc ch.id (svc ch.content)) m)).2) := by
  rw [embedRun]

/-- The chunk view after an embedding run: every chunk gets its service
vector, in order. -/
theorem embedRun_chunks (svc : String → List ℝ) :
    ∀ (n : Nat) (cs : List DocumentChunk) (m : List (String × List ℝ)),
      cs.length = n →
      (embedRun svc cs m).1
        = cs.map (fun ch => { ch with embedding := some (svc ch.content) }) := by
  intro n
  induction n using Nat.strong_induction_on with
  | _ n ih =>
    intro cs m hlen
    cases cs with
    | nil => rw [embedRun]; rfl
    | cons c rest =>
      simp only [List.length_cons] at hlen
      rw [embedRun_cons]
      have hlt : ((c :: rest).drop 100).length < n := by
        simp only [List.length_drop, List.length_cons]
        omega
      rw [ih _ hlt _ _ rfl]
      rw [← List.map_append, List.take_append_drop]

/-- Keys not embedded in the run keep their map entry. -/
theorem embedRun_map_not_mem (svc : String → List ℝ) (k : String) :
    ∀ (n : Nat) (cs : List DocumentChunk) (m : List (String × List ℝ)),
      cs.length = n →
      k ∉ cs.map (fun c => c.id) →
      mapGet (embedRun svc cs m).2 k = mapGet m k := by
  intro n
  induction n using Nat.strong_induction_on with
  | _ n ih =>
    intro cs m hlen hk
    cases cs with
    | nil => rw [embedRun]
    | cons c rest =>
      simp only [List.length_cons] at hlen
      rw [embedRun_cons]
      have hlt : ((c :: rest).drop 100).length < n := by
        simp only [List.length_drop, List.length_cons]
        omega
      have hk1 : k ∉ ((c :: rest).take 100).map (fun c => c.id) := by
        intro hc
        exact hk (by
          rcases List.mem_map.mp hc with ⟨ch, hch, hid⟩
          exact List.mem_map.mpr ⟨ch, List.mem_of_mem_take hch, hid⟩)
      have hk2 : k ∉ ((c :: rest).drop 100).map (fun c => c.id) := by
        intro hc
        exact hk (by
          rcases List.mem_map.mp hc with ⟨ch, hch, hid⟩
          exact List.mem_map.mpr ⟨ch, List.mem_of_mem_drop hch, hid⟩)
      rw [ih _ hlt _ _ rfl hk2]
      exact mapGet_foldl_not_mem svc k _ _ hk1

/-- After an embedding run with globally unique ids, every chunk's id maps
to its service vector. -/
theorem embedRun_map_get (svc : String → List ℝ) :
    ∀ (n : Nat) (cs : List DocumentChunk) (m : List (String × List ℝ)),
      cs.length = n →
      (cs.map (fun c => c.id)).Nodup →
      ∀ c ∈ cs, mapGet (embedRun svc cs m).2 c.id = some (svc c.content) := by
  intro n
  induction n using Nat.strong_induction_on with
  | _ n ih =>
    intro cs m hlen hnd c hc
    cases cs with
    | nil => exact absurd hc (List.not_mem_nil c)
    | cons c0 rest =>
      simp only [List.length_cons] at hlen
      have hsplit : ((c0 :: rest).take 100).map (fun c => c.id) ++
          ((c0 :: rest).drop 100).map (fun c => c.id)
            = (c0 :: rest).map (fun c => c.id) := by
        rw [← List.map_append, List.take_append_drop]
      have hnd2 : (((c0 :: rest).take 100).map (fun c => c.id) ++
          ((c0 :: rest).drop 100).map (fun c => c.id)).Nodup := by
        rw [hsplit]; exact hnd
      rcases List.nodup_append.mp hnd2 with ⟨hndt, hndd, hdisj⟩
      rw [embedRun_cons]
      have hlt : ((c0 :: rest).drop 100).length < n := by
        simp only [List.length_drop, List.length_cons]
        omega
      have hc2 : c ∈ (c0 :: rest).take 100 ++ (c0 :: rest).drop 100 := by
        rw [List.take_append_drop]
        exact hc
      rcases List.mem_append.mp hc2 with htake | hdrop
      · have hidt : c.id ∈ ((c0 :: rest).take 100).map (fun c => c.id) :=
          List.mem_map.mpr ⟨c, htake, rfl⟩
        have hnotd : c.id ∉ ((c0 :: rest).drop 100).map (fun c => c.id) :=
          fun hcon => hdisj hidt hcon
        rw [embedRun_map_not_mem svc c.id _ _ _ rfl hnotd]
        exact mapGet_foldl_batch svc _ m hndt c htake
      · exact ih _ hlt _ _ rfl hndd c hdrop

/-- `Map.set` with a fresh key appends the entry. -/
theorem mapSet_append (k : String) (v : List ℝ) :
    ∀ (m : List (String × List ℝ)), (∀ kv ∈ m, kv.1 ≠ k) →
      mapSet m k v = m ++ [(k, v)] := by
  intro m
  induction m with
  | nil => intro _; rfl
  | cons kv rest ih =>
    intro h
    have hne : kv.1 ≠ k := h kv (List.mem_cons_self kv rest)
    simp only [mapSet, hne, if_false, List.cons_append]
    rw [ih (fun kv' hkv' => h kv' (List.mem_cons_of_mem kv hkv'))]

/-- `new Map(entries)` over entries with unique keys reproduces the entry
list. -/
theorem mapFromEntries_nodup :
    ∀ (l acc : List (String × List ℝ)),
      ((acc ++ l).map (fun kv => kv.1)).Nodup →
      l.foldl (fun m kv => mapSet m kv.1 kv.2) acc = acc ++ l := by
  intro l
  induction l with
  | nil => intro acc _; simp
  | cons p rest ih =>
    intro acc hnd
    simp only [List.foldl_cons]
    have hn2 : (acc.map (fun q => q.1) ++ (p.1 :: rest.map (fun q => q.1))).Nodup := by
      simpa using hnd
    have hfresh : ∀ q ∈ acc, q.1 ≠ p.1 := by
      intro q hq heq
      rcases List.nodup_append.mp hn2 with ⟨_, _, hdisj⟩
      exact hdisj (List.mem_map.mpr ⟨q, hq, rfl⟩)
        (by rw [heq]; exact List.mem_cons_self _ _)
    rw [mapSet_append p.1 p.2 acc hfresh]
    have hnd2 : (((acc ++ [p]) ++ rest).map (fun q => q.1)).Nodup := by
      simpa using hnd
    have := ih (acc ++ [p]) hnd2
    rw [show acc ++ [p] ++ rest = acc ++ p :: rest by simp] at this
    exact this

/-- Claim C8: the dual-bookkeeping invariant. A successful embedding run
over chunks with unique ids writes each chunk's vector to both views in
agreement, and a load of a snapshot produced by save reproduces the state
exactly (hence keeps both views agreeing). -/
theorem claim_C8 :
    (∀ (svc : String → List ℝ) (s s' : RAGState),
       generateEmbeddings svc s = some s' →
       (s.chunks.map (fun c => c.id)).Nodup →
       (∀ c ∈ s'.chunks, c.embedding = some (svc c.content)) ∧ inSync s')
    ∧ (∀ (s : RAGState) (ts : String),
        (s.embeddings.map (fun kv => kv.1)).Nodup →
        loadFromLocalStorage (saveToLocalStorage s ts) s = s) := by
  constructor
  · intro svc s s' hgen hnd
    cases hoa : s.openai with
    | none => rw [generateEmbeddings, hoa] at hgen; exact absurd hgen (by simp)
    | some key =>
      rw [generateEmbeddings, hoa] at hgen
      cases hgen
      constructor
      · intro c hc
        rw [embedRun_chunks svc s.chunks.length s.chunks s.embeddings rfl] at hc
        rcases List.mem_map.mp hc with ⟨c0, _, rfl⟩
        rfl
      · intro c hc v hv
        simp only at hc hv ⊢
        rw [embedRun_chunks svc s.chunks.length s.chunks s.embeddings rfl] at hc
        rcases List.mem_map.mp hc with ⟨c0, hc0, rfl⟩
        simp only at hv
        cases hv
        exact embedRun_map_get svc s.chunks.length s.chunks s.embeddings rfl hnd c0 hc0
  · intro s ts hnd
    rw [loadFromLocalStorage, saveToLocalStorage]
    have : mapFromEntries s.embeddings = s.embeddings := by
      rw [mapFromEntries, mapFromEntries_nodup s.embeddings [] (by simpa using hnd)]
      simp
    rw [this]

/-- Witness for C8: a one-chunk store embeds into agreeing views, and a
snapshot round-trip is the identity. -/
theorem claim_C8_witness :
    inSync ⟨[⟨"c-0", "hi", ⟨"T", "p", "lm", none, [], some 0, some 1⟩,
        some [(1 : ℝ)]⟩], [("c-0", [(1 : ℝ)])], some "key"⟩
    ∧ loadFromLocalStorage
        (saveToLocalStorage ⟨[], [("a", [(1 : ℝ)])], none⟩ "ts")
        ⟨[], [("a", [(1 : ℝ)])], none⟩
      = ⟨[], [("a", [(1 : ℝ)])], none⟩ := by
  have hrun : embedRun (fun _ => [(1 : ℝ)])
      [⟨"c-0", "hi", ⟨"T", "p", "lm", none, [], some 0, some 1⟩, none⟩] [] =
      ([⟨"c-0", "hi", ⟨"T", "p", "lm", none, [], some 0, some 1⟩, some [(1 : ℝ)]⟩],
        [("c-0", [(1 : ℝ)])]) := by
    rw [embedRun_cons]
    rw [List.take_of_length_le (by simp), List.drop_eq_nil_of_le (by simp)]
    simp only [List.foldl_cons, List.foldl_nil, List.map_cons, List.map_nil, mapSet]
    rw [show embedRun (fun _ => [(1 : ℝ)]) ([] : List DocumentChunk)
        ([(("c-0" : String), [(1 : ℝ)])]) = ([], [(("c-0" : String), [(1 : ℝ)])]) from by
      rw [embedRun]]
    rfl
  have hgen : generateEmbeddings (fun _ => [(1 : ℝ)])
      ⟨[⟨"c-0", "hi", ⟨"T", "p", "lm", none, [], some 0, some 1⟩, none⟩],
        [], some "key"⟩ =
      some ⟨[⟨"c-0", "hi", ⟨"T", "p", "lm", none, [], some 0, some 1⟩,
          some [(1 : ℝ)]⟩], [("c-0", [(1 : ℝ)])], some "key"⟩ := by
    rw [generateEmbeddings]
    simp only [hrun]
  constructor
  · exact (claim_C8.1 (fun _ => [(1 : ℝ)])
      ⟨[⟨"c-0", "hi", ⟨"T", "p", "lm", none, [], some 0, some 1⟩, none⟩],
        [], some "key"⟩
      ⟨[⟨"c-0", "hi", ⟨"T", "p", "lm", none, [], some 0, some 1⟩,
          some [(1 : ℝ)]⟩], [("c-0", [(1 : ℝ)])], some "key"⟩
      hgen (by decide)).2
  · exact claim_C8.2 ⟨[], [("a", [(1 : ℝ)])], none⟩ "ts" (by decide)

/-! ### Lemmas about `formatSearchResults` -/

/-- The `forEach` loop only ever appends to `context`. -/
theorem formatFold_suffix :
    ∀ (l : List (Nat × SearchResult)) (init : String),
      ∃ suffix,
        l.foldl (fun context ir => context ++ entryString (ir.1 + 1) ir.2) init
          = init ++ suffix := by
  intro l
  induction l with
  | nil => intro init; exact ⟨"", (String.append_empty init).symm⟩
  | cons x xs ih =>
    intro init
    rcases ih (init ++ entryString (x.1 + 1) x.2) with ⟨sfx, hsfx⟩
    exact ⟨entryString (x.1 + 1) x.2 ++ sfx, by
      rw [List.foldl_cons, hsfx, String.append_assoc]⟩

/-- The entry contributed by the element `x` of the `forEach` loop occurs
as a contiguous block of the final context. -/
theorem foldl_mid (A B : List (Nat × SearchResult)) (x : Nat × SearchResult)
    (init : String) :
    ∃ pre post,
      (A ++ x :: B).foldl (fun context ir => context ++ entryString (ir.1 + 1) ir.2) init
        = pre ++ entryString (x.1 + 1) x.2 ++ post := by
  rcases formatFold_suffix B
    ((A.foldl (fun context ir => context ++ entryString (ir.1 + 1) ir.2) init)
      ++ entryString (x.1 + 1) x.2) with ⟨post, hpost⟩
  refine ⟨A.foldl (fun context ir => context ++ entryString (ir.1 + 1) ir.2) init, post, ?_⟩
  rw [List.foldl_append, List.foldl_cons, hpost]

/-- Claim C9: the empty result list formats to exactly the fixed sentinel;
a non-empty list formats to a string in which, for every index `i`, the
numbered entry `[i+1]` with the `i`-th result's title, raw content and
percentage-rendered score occurs as a contiguous block. -/
theorem claim_C9 :
    (formatSearchResults [] = "관련된 정보를 찾을 수 없습니다.")
    ∧ (∀ (results : List SearchResult) (i : Nat) (h : i < results.length),
        ∃ pre post, formatSearchResults results =
          pre ++ entryString (i + 1) (results.get ⟨i, h⟩) ++ post) := by
  constructor
  · rfl
  · intro results i h
    have hne : ¬(results.length = 0) := by omega
    have hlen : i < results.enum.length := by
      rw [List.enum_eq_enumFrom, List.enumFrom_length]
      exact h
    have hget : results.enum[i] = (i, results.get ⟨i, h⟩) := by
      simp [List.enum_eq_enumFrom, List.getElem_enumFrom]
    have hsplit : results.enum
        = results.enum.take i ++ (i, results.get ⟨i, h⟩) :: results.enum.drop (i + 1) := by
      conv_lhs => rw [← List.take_append_drop i results.enum]
      rw [List.drop_eq_getElem_cons hlen, hget]
    rw [formatSearchResults, if_neg hne, hsplit]
    exact foldl_mid _ _ (i, results.get ⟨i, h⟩) _

/-- Witness for C9: the empty sentinel, and entry `[1]` of a one-result
list. -/
theorem claim_C9_witness :
    formatSearchResults [] = "관련된 정보를 찾을 수 없습니다."
    ∧ ∃ pre post,
        formatSearchResults
          [⟨⟨"c-0", "hi", ⟨"T", "p", "lm", none, [], some 0, some 1⟩, none⟩, (1 : ℝ) / 2⟩]
          = pre ++ entryString 1
              ⟨⟨"c-0", "hi", ⟨"T", "p", "lm", none, [], some 0, some 1⟩, none⟩, (1 : ℝ) / 2⟩
            ++ post :=
  ⟨claim_C9.1,
   claim_C9.2 [⟨⟨"c-0", "hi", ⟨"T", "p", "lm", none, [], some 0, some 1⟩, none⟩, (1 : ℝ) / 2⟩]
     0 (by simp)⟩

/-! ### Lemmas about the unguarded division (C10) -/

/-- The dot-product loop yields `0` when the right vector is all zeros. -/
theorem listDot_right_zero : ∀ (a b : List ℝ), (∀ x ∈ b, x = 0) → listDot a b = 0 := by
  intro a
  induction a with
  | nil => intro b _; cases b <;> simp [listDot]
  | cons x xs ih =>
    intro b hb
    cases b with
    | nil => simp [listDot]
    | cons y ys =>
      have hy : y = 0 := hb y (List.mem_cons_self y ys)
      have hys : ∀ x ∈ ys, x = 0 := fun x hx => hb x (List.mem_cons_of_mem y hx)
      simp only [listDot, List.zipWith_cons_cons, List.sum_cons] at *
      rw [hy, ih ys hys, mul_zero, add_zero]

/-- Claim C10: the division in `cosineSimilarity` is unguarded, so under
IEEE semantics an all-zero vector on either side (with equal lengths)
makes the result the `0/0` value NaN rather than a number in `[-1, 1]`. -/
theorem claim_C10 :
    (∀ a b : List ℝ, a.length = b.length → (∀ x ∈ b, x = 0) →
        cosineSimilarityIEEE a b = JsFloat.nan)
    ∧ (∀ a b : List ℝ, a.length = b.length → (∀ x ∈ a, x = 0) →
        cosineSimilarityIEEE a b = JsFloat.nan) := by
  have hzero : ∀ (a b : List ℝ), a.length = b.length → (∀ x ∈ b, x = 0) →
      cosineSimilarityIEEE a b = JsFloat.nan := by
    intro a b hl hb
    have hdot : listDot a b = 0 := listDot_right_zero a b hb
    have hbb : listDot b b = 0 := listDot_right_zero b b hb
    simp only [cosineSimilarityIEEE]
    rw [if_neg (fun hc => hc hl)]
    rw [hdot, hbb, Real.sqrt_zero, mul_zero, jsDiv, if_pos rfl, if_pos rfl]
  constructor
  · exact hzero
  · intro a b hl ha
    have hdot : listDot a b = 0 := by
      rw [listDot_comm]
      exact listDot_right_zero b a ha
    have haa : listDot a a = 0 := listDot_right_zero a a ha
    simp only [cosineSimilarityIEEE]
    rw [if_neg (fun hc => hc hl)]
    rw [hdot, haa, Real.sqrt_zero, zero_mul, jsDiv, if_pos rfl, if_pos rfl]

/-- Witness for C10: a zero chunk vector against a non-zero query vector. -/
theorem claim_C10_witness :
    cosineSimilarityIEEE [(1 : ℝ)] [(0 : ℝ)] = JsFloat.nan :=
  claim_C10.1 [(1 : ℝ)] [(0 : ℝ)] rfl (by simp)
